import Mathlib

/-!
Shallow embedding of `src/main/ipc/agent.ts` (the agent IPC handlers of the
openwork repository) and proofs about its event-stream behaviour.

Modelling conventions:
* JavaScript optional / possibly-absent string fields become `Option String`;
  JS truthiness of a string (`s || d`) is `truthyStr`, which maps the empty
  string to `none`.
* `crypto.randomUUID()` is modelled by a freshness counter: the session state
  carries a `Nat` counter and each generated identifier is `MsgId.fresh n`
  for the current counter value, after which the counter increments.  `raw`
  and `fresh` identifiers never collide, and two distinct generations never
  collide, which models UUID uniqueness.
* A field that is "absent or not an array" in the TS code is modelled as
  `none`; a present array (possibly empty) is `some l`.
* `window.webContents.send` (the Transport) is modelled as appending the
  event to the session's event list; per the error model it never faults.
* The `for await` loop over the runtime's snapshot stream is modelled by a
  list of snapshots.  The abort signal is modelled by `abortFrom : Option
  Nat`: the signal is observed as aborted at the check following the pull of
  chunk `i` iff `abortFrom = some n` with `n ≤ i` (the signal is monotone).
  A fault raised by the runtime when pulling past the last listed snapshot is
  modelled by `fault? : Option String`.
-/

/-- Message role as derived in the handler (`agent.ts` lines 67-74). -/
inductive Role
  | user
  | assistant
  | system
  | tool
deriving DecidableEq, Repr

/-- A message identifier: either the raw `id` string found on the message, or
a freshly generated one (modelling `crypto.randomUUID()`), numbered by the
generation counter. -/
inductive MsgId
  | raw (s : String)
  | fresh (n : Nat)
deriving DecidableEq, Repr

/-- JS truthiness for an optional string: absent and `""` are falsy. -/
def truthyStr : Option String → Option String
  | some s => if s = "" then none else some s
  | none => none

/-- One element of a structured `msg.content` array (`agent.ts` lines 80-84). -/
structure ContentBlock where
  type? : Option String
  text? : Option String
deriving DecidableEq, Repr

/-- The raw `msg.content` field: a string, an array of blocks, or any other
shape (which extracts to empty content). -/
inductive RawContent
  | str (s : String)
  | blocks (bs : List ContentBlock)
  | other
deriving DecidableEq, Repr

/-- A raw message item of `state.messages`.  `tag?` is the result of
`msg._getType()`; `none` models the absence of that function. -/
structure RawMsg where
  id? : Option String
  tag? : Option String
  content : RawContent
deriving DecidableEq, Repr

/-- A raw item of `state.todos` (`agent.ts` lines 111-115). -/
structure RawTodo where
  id? : Option String
  content? : Option String
  status? : Option String
deriving DecidableEq, Repr

/-- The value stored under a path key in the keyed `state.files` mapping. -/
structure FileData where
  content? : Option String
  lastModified? : Option Nat
deriving DecidableEq, Repr

/-- An entry of the legacy array form of `state.files` (`agent.ts` 142-156). -/
structure LegacyFileEntry where
  path : String
  is_dir? : Option Bool
  size? : Option Nat
deriving DecidableEq, Repr

/-- The `state.files` field: absent (or otherwise unusable), a keyed mapping
path -> FileData (modelled as its ordered entry list, as produced by
`Object.entries`), or the legacy array form. -/
inductive FilesField
  | absent
  | obj (entries : List (String × FileData))
  | arr (entries : List LegacyFileEntry)
deriving DecidableEq, Repr

/-- A raw item of `state.subagents` (`agent.ts` lines 160-181). -/
structure RawSubagent where
  id? : Option String
  name? : Option String
  type? : Option String
  description? : Option String
  status? : Option String
  startedAt? : Option String
  completedAt? : Option String
deriving DecidableEq, Repr

/-- The raw `state.__interrupt__` field; `tool_call?` is kept opaque. -/
structure RawInterrupt where
  id? : Option String
  tool_call? : Option String
deriving DecidableEq, Repr

/-- One snapshot (`chunk`) pulled from the runtime stream, with the five
fields the handler reads.  `messages?`/`todos?`/`subagents?` are `none` when
the field is absent or not an array. -/
structure RawSnapshot where
  messages? : Option (List RawMsg)
  todos? : Option (List RawTodo)
  files : FilesField
  workspacePath? : Option String
  subagents? : Option (List RawSubagent)
  interrupt? : Option RawInterrupt
deriving DecidableEq, Repr

/-- An emitted chat message (`agent.ts` lines 91-100); `tool_calls` is opaque
and omitted, `created_at` is an external clock read and omitted. -/
structure Message where
  id : MsgId
  role : Role
  content : String
deriving DecidableEq, Repr

/-- An emitted todo item.  `status` is a plain string: the TS code casts the
raw status with `as` and performs no runtime check. -/
structure Todo where
  id : MsgId
  content : String
  status : String
deriving DecidableEq, Repr

/-- An emitted workspace file entry. -/
structure FileEntry where
  path : String
  is_dir : Option Bool
  size : Option Nat
deriving DecidableEq, Repr

/-- An emitted subagent item; timestamps are kept as their raw strings. -/
structure Subagent where
  id : MsgId
  name : String
  description : String
  status : String
  startedAt? : Option String
  completedAt? : Option String
deriving DecidableEq, Repr

/-- An emitted interrupt request (`agent.ts` lines 189-196). -/
structure InterruptRequest where
  id : MsgId
  tool_call? : Option String
  allowed_decisions : List String
deriving DecidableEq, Repr

/-- The wire events pushed on the `agent:stream:<threadId>` channel.  `done`
always carries `result: null` in the code, so it carries no payload here. -/
inductive StreamEvent
  | message (m : Message)
  | todos (items : List Todo)
  | workspace (files : List FileEntry) (path : String)
  | subagents (items : List Subagent)
  | interrupt (req : InterruptRequest)
  | done
  | error (msg : String)
deriving DecidableEq, Repr

/-- Per-session mutable state: the `seenMessageIds` dedup set (`agent.ts`
line 36) and the freshness counter modelling `crypto.randomUUID()`. -/
structure SessState where
  seenMessageIds : List MsgId
  ctr : Nat
deriving DecidableEq, Repr

/-- Role derivation (`agent.ts` lines 67-74): default `assistant`, refined by
the message tag when the `_getType` function exists. -/
def deriveRole (tag? : Option String) : Role :=
  match tag? with
  | none => Role.assistant
  | some t =>
      if t = "human" then Role.user
      else if t = "ai" then Role.assistant
      else if t = "system" then Role.system
      else if t = "tool" then Role.tool
      else Role.assistant

/-- Content extraction (`agent.ts` lines 77-85): a string verbatim; an array
keeps the `text` of blocks whose `type` is `"text"` and concatenates them;
any other shape gives the empty string. -/
def extractContent : RawContent → String
  | RawContent.str s => s
  | RawContent.blocks bs =>
      String.join ((bs.filter (fun b => b.type? = some "text")).map
        (fun b => b.text?.getD ""))
  | RawContent.other => ""

/-- Processing of one message item (`agent.ts` lines 60-104): derive the id
(generating a fresh one when the raw id is falsy), skip it if already seen,
derive role and content, and emit a Message event only for `assistant` role
with non-empty content, recording the id in the dedup set on emission. -/
def processMsg (st : SessState) (msg : RawMsg) : List StreamEvent × SessState :=
  let idCtr : MsgId × Nat :=
    match truthyStr msg.id? with
    | some s => (MsgId.raw s, st.ctr)
    | none => (MsgId.fresh st.ctr, st.ctr + 1)
  let st1 : SessState := { seenMessageIds := st.seenMessageIds, ctr := idCtr.2 }
  if idCtr.1 ∈ st1.seenMessageIds then ([], st1)
  else
    let role := deriveRole msg.tag?
    let content := extractContent msg.content
    if role = Role.assistant ∧ content ≠ "" then
      ([StreamEvent.message { id := idCtr.1, role := role, content := content }],
        { seenMessageIds := idCtr.1 :: st1.seenMessageIds, ctr := st1.ctr })
    else ([], st1)

/-- The `for (const msg of state.messages)` loop. -/
def processMessages : SessState → List RawMsg → List StreamEvent × SessState
  | st, [] => ([], st)
  | st, m :: ms =>
      let r := processMsg st m
      let k := processMessages r.2 ms
      (r.1 ++ k.1, k.2)

/-- Mapping of one raw todo (`agent.ts` lines 111-115): `t.id ||
crypto.randomUUID()`, `t.content || ""`, `t.status || "pending"` with the
status cast but not validated. -/
def mkTodo (ctr : Nat) (t : RawTodo) : Todo × Nat :=
  match truthyStr t.id? with
  | some s =>
      ({ id := MsgId.raw s, content := (truthyStr t.content?).getD "",
         status := (truthyStr t.status?).getD "pending" }, ctr)
  | none =>
      ({ id := MsgId.fresh ctr, content := (truthyStr t.content?).getD "",
         status := (truthyStr t.status?).getD "pending" }, ctr + 1)

/-- Maps the todos array, threading the freshness counter. -/
def mkTodos : Nat → List RawTodo → List Todo × Nat
  | c, [] => ([], c)
  | c, t :: ts =>
      let r := mkTodo c t
      let k := mkTodos r.2 ts
      (r.1 :: k.1, k.2)

/-- The todos branch (`agent.ts` lines 108-118): `state.todos &&
Array.isArray(state.todos)`.  A present array, even empty, is truthy in JS,
so every present array yields exactly one Todos event. -/
def extractTodos (ctr : Nat) (snap : RawSnapshot) : List StreamEvent × Nat :=
  match snap.todos? with
  | none => ([], ctr)
  | some l =>
      let r := mkTodos ctr l
      ([StreamEvent.todos r.1], r.2)

/-- Model of `process.cwd()`: an opaque string supplied by the environment. -/
def processCwd : String := "."

/-- The workspace branch (`agent.ts` lines 122-157).  Keyed-mapping entries
become FileEntries with `is_dir := some false` and `size` the character
length of the content string when it is a string; the legacy array form
passes its fields through.  Either form emits only when non-empty. -/
def extractWorkspace (snap : RawSnapshot) : List StreamEvent :=
  let wpath := (truthyStr snap.workspacePath?).getD processCwd
  match snap.files with
  | FilesField.absent => []
  | FilesField.obj entries =>
      let files := entries.map (fun e =>
        { path := e.1, is_dir := some false,
          size := match e.2.content? with
            | some c => some c.length
            | none => none : FileEntry })
      if files.length > 0 then [StreamEvent.workspace files wpath] else []
  | FilesField.arr entries =>
      if entries.length > 0 then
        [StreamEvent.workspace
          (entries.map (fun f =>
            { path := f.path, is_dir := f.is_dir?, size := f.size? : FileEntry }))
          wpath]
      else []

/-- Mapping of one raw subagent (`agent.ts` lines 174-181). -/
def mkSubagent (ctr : Nat) (s : RawSubagent) : Subagent × Nat :=
  let nm := (truthyStr s.name?).getD ((truthyStr s.type?).getD "Subagent")
  let desc := (truthyStr s.description?).getD ""
  let stat := (truthyStr s.status?).getD "pending"
  match truthyStr s.id? with
  | some i =>
      ({ id := MsgId.raw i, name := nm, description := desc, status := stat,
         startedAt? := truthyStr s.startedAt?,
         completedAt? := truthyStr s.completedAt? }, ctr)
  | none =>
      ({ id := MsgId.fresh ctr, name := nm, description := desc, status := stat,
         startedAt? := truthyStr s.startedAt?,
         completedAt? := truthyStr s.completedAt? }, ctr + 1)

/-- Maps the subagents array, threading the freshness counter. -/
def mkSubagents : Nat → List RawSubagent → List Subagent × Nat
  | c, [] => ([], c)
  | c, s :: ss =>
      let r := mkSubagent c s
      let k := mkSubagents r.2 ss
      (r.1 :: k.1, k.2)

/-- The subagents branch (`agent.ts` lines 170-184): emits only for a present
non-empty array. -/
def extractSubagents (ctr : Nat) (snap : RawSnapshot) : List StreamEvent × Nat :=
  match snap.subagents? with
  | none => ([], ctr)
  | some l =>
      if l.length > 0 then
        let r := mkSubagents ctr l
        ([StreamEvent.subagents r.1], r.2)
      else ([], ctr)

/-- The interrupt branch (`agent.ts` lines 187-198): a present
`__interrupt__` field emits one Interrupt event with the fixed decision
set. -/
def extractInterrupt (ctr : Nat) (snap : RawSnapshot) : List StreamEvent × Nat :=
  match snap.interrupt? with
  | none => ([], ctr)
  | some itr =>
      match truthyStr itr.id? with
      | some s =>
          ([StreamEvent.interrupt
            { id := MsgId.raw s, tool_call? := itr.tool_call?,
              allowed_decisions := ["approve", "reject", "edit"] }], ctr)
      | none =>
          ([StreamEvent.interrupt
            { id := MsgId.fresh ctr, tool_call? := itr.tool_call?,
              allowed_decisions := ["approve", "reject", "edit"] }], ctr + 1)

/-- The messages branch of snapshot processing (`agent.ts` lines 59-105):
nothing when `state.messages` is absent or not an array, else the message
loop. -/
def processSnapshotMsgs (st : SessState) (snap : RawSnapshot) :
    List StreamEvent × SessState :=
  match snap.messages? with
  | none => (([] : List StreamEvent), st)
  | some msgs => processMessages st msgs

/-- Processing of one pulled snapshot, in the code's fixed order: messages,
todos, workspace, subagents, interrupt. -/
def processSnapshot (st : SessState) (snap : RawSnapshot) :
    List StreamEvent × SessState :=
  let rm := processSnapshotMsgs st snap
  let rt := extractTodos rm.2.ctr snap
  let rw := extractWorkspace snap
  let rs := extractSubagents rt.2 snap
  let ri := extractInterrupt rs.2 snap
  (rm.1 ++ rt.1 ++ rw ++ rs.1 ++ ri.1,
    { seenMessageIds := rm.2.seenMessageIds, ctr := ri.2 })

/-- Whether the abort signal is observed as aborted at the check following
the pull of chunk `i`; the signal is set from pull index `n` on. -/
def abortedAt : Option Nat → Nat → Bool
  | none, _ => false
  | some n, i => n ≤ i

/-- The `for await` loop (`agent.ts` lines 51-199): pull a chunk, check the
abort signal (breaking without processing the pulled chunk when set), else
process it.  Returns the pushed events and whether the loop broke early. -/
def streamLoop : SessState → Nat → Option Nat → List RawSnapshot →
    List StreamEvent × Bool
  | _, _, _, [] => ([], false)
  | st, i, abortFrom, snap :: rest =>
      if abortedAt abortFrom i then ([], true)
      else
        let r := processSnapshot st snap
        let k := streamLoop r.2 (i + 1) abortFrom rest
        (r.1 ++ k.1, k.2)

/-- The session starts with an empty dedup set (`agent.ts` line 36) and a
fresh generation counter. -/
def initialState : SessState := { seenMessageIds := [], ctr := 0 }

/-- One whole `agent:invoke` session (`agent.ts` lines 27-215), given the
snapshots the runtime yields, the abort point, and an optional fault raised
by the runtime when pulling past the last snapshot: the loop runs, then Done
is pushed on normal exit or break, and Error is pushed when the final pull
faulted (the catch block). -/
def sessionEvents (snaps : List RawSnapshot) (abortFrom : Option Nat)
    (fault? : Option String) : List StreamEvent :=
  let r := streamLoop initialState 0 abortFrom snaps
  if r.2 then r.1 ++ [StreamEvent.done]
  else
    match fault? with
    | none => r.1 ++ [StreamEvent.done]
    | some m => r.1 ++ [StreamEvent.error m]

/-- The decision types of a HITL decision. -/
inductive DecisionType
  | approve
  | reject
  | edit
deriving DecidableEq, Repr

/-- A HITL decision; the payload is opaque. -/
structure HITLDecision where
  type : DecisionType
  payload? : Option String
deriving DecidableEq, Repr

/-- The runtime interactions an interrupt handler could perform:
`invokeNull t` is `agent.invoke(null, configurable thread_id t)`;
`resumeCancel` and `updateArgs` are the interactions a rejection or an edit
would need (cancel the pending tool call; overwrite its arguments).  The
implemented handler only ever produces `invokeNull`. -/
inductive RuntimeCall
  | invokeNull (threadId : String)
  | resumeCancel (threadId : String)
  | updateArgs (threadId : String) (payload : Option String)
deriving DecidableEq, Repr

/-- The errors a resume operation could report to its caller. -/
inductive ResumeError
  | noPendingInterrupt
  | runtimeResumeFault (msg : String)
deriving DecidableEq, Repr

/-- The `agent:interrupt` handler (`agent.ts` lines 219-236): for `approve`
it invokes the runtime with a null input; the `reject` and `edit` branches
contain only comments and perform nothing; no pending-interrupt check is
made and no error is ever reported. -/
def handleInterrupt (threadId : String) (decision : HITLDecision) :
    List RuntimeCall × Option ResumeError :=
  match decision.type with
  | DecisionType.approve => ([RuntimeCall.invokeNull threadId], none)
  | DecisionType.reject => ([], none)
  | DecisionType.edit => ([], none)

/-- Terminal events are Done and Error. -/
def isTerminal : StreamEvent → Bool
  | StreamEvent.done => true
  | StreamEvent.error _ => true
  | _ => false

/-- The Message payloads of an event list. -/
def messagesOf (evs : List StreamEvent) : List Message :=
  evs.filterMap (fun e =>
    match e with
    | StreamEvent.message m => some m
    | _ => none)

/-- The ids of the Message events of an event list. -/
def msgIdsOf (evs : List StreamEvent) : List MsgId :=
  (messagesOf evs).map Message.id

/-- The Todos payloads of an event list. -/
def todosPayloads (evs : List StreamEvent) : List (List Todo) :=
  evs.filterMap (fun e =>
    match e with
    | StreamEvent.todos l => some l
    | _ => none)

/-- The Workspace file lists of an event list. -/
def workspacePayloads (evs : List StreamEvent) : List (List FileEntry) :=
  evs.filterMap (fun e =>
    match e with
    | StreamEvent.workspace fs _ => some fs
    | _ => none)

/-- The Subagents payloads of an event list. -/
def subagentsPayloads (evs : List StreamEvent) : List (List Subagent) :=
  evs.filterMap (fun e =>
    match e with
    | StreamEvent.subagents l => some l
    | _ => none)

/-- The statuses the spec's Todo data model allows. -/
def allowedTodoStatuses : List String :=
  ["pending", "in_progress", "completed", "cancelled"]

/-! ### Helper lemmas -/

theorem processMsg_cases (st : SessState) (m : RawMsg) :
    ((processMsg st m).1 = [] ∧
      (processMsg st m).2.seenMessageIds = st.seenMessageIds) ∨
    (∃ x, (processMsg st m).1 =
        [StreamEvent.message
          { id := x, role := Role.assistant, content := extractContent m.content }] ∧
      x ∉ st.seenMessageIds ∧
      (processMsg st m).2.seenMessageIds = x :: st.seenMessageIds ∧
      extractContent m.content ≠ "") := by
  cases h : truthyStr m.id? with
  | none =>
      simp only [processMsg, h]
      split_ifs with h1 h2
      · exact Or.inl ⟨rfl, rfl⟩
      · exact Or.inr ⟨MsgId.fresh st.ctr, by simp [h2.1], h1, rfl, h2.2⟩
      · exact Or.inl ⟨rfl, rfl⟩
  | some s =>
      simp only [processMsg, h]
      split_ifs with h1 h2
      · exact Or.inl ⟨rfl, rfl⟩
      · exact Or.inr ⟨MsgId.raw s, by simp [h2.1], h1, rfl, h2.2⟩
      · exact Or.inl ⟨rfl, rfl⟩

theorem messagesOf_append (a b : List StreamEvent) :
    messagesOf (a ++ b) = messagesOf a ++ messagesOf b := by
  simp [messagesOf]

theorem msgIdsOf_append (a b : List StreamEvent) :
    msgIdsOf (a ++ b) = msgIdsOf a ++ msgIdsOf b := by
  simp [msgIdsOf, messagesOf_append]

theorem processMessages_eq (st : SessState) (m : RawMsg) (ms : List RawMsg) :
    processMessages st (m :: ms) =
      ((processMsg st m).1 ++ (processMessages (processMsg st m).2 ms).1,
        (processMessages (processMsg st m).2 ms).2) := rfl

theorem processMessages_invariant (ms : List RawMsg) (st : SessState) :
    (msgIdsOf (processMessages st ms).1).Nodup ∧
    (∀ x ∈ msgIdsOf (processMessages st ms).1, x ∉ st.seenMessageIds) ∧
    (∀ x, x ∈ msgIdsOf (processMessages st ms).1 ∨ x ∈ st.seenMessageIds →
      x ∈ (processMessages st ms).2.seenMessageIds) := by
  induction ms generalizing st with
  | nil => simp [processMessages, msgIdsOf, messagesOf]
  | cons m ms ih =>
      rw [processMessages_eq]
      rcases ih (processMsg st m).2 with ⟨ihn, ihf, ihs⟩
      rcases processMsg_cases st m with ⟨he, hs⟩ | ⟨x, he, hx, hs, _⟩
      · simp only [he, List.nil_append]
        refine ⟨ihn, ?_, ?_⟩
        · intro y hy
          have h2 := ihf y hy
          rw [hs] at h2
          exact h2
        · intro y hy
          refine ihs y ?_
          rcases hy with hy | hy
          · exact Or.inl hy
          · exact Or.inr (by rw [hs]; exact hy)
      · simp only [msgIdsOf_append, he]
        have hidone : msgIdsOf [StreamEvent.message
            { id := x, role := Role.assistant, content := extractContent m.content }] = [x] := by
          simp [msgIdsOf, messagesOf]
        refine ⟨?_, ?_, ?_⟩
        · rw [hidone, List.singleton_append, List.nodup_cons]
          constructor
          · intro hmem
            exact ihf x hmem (by rw [hs]; exact List.mem_cons_self x _)
          · exact ihn
        · intro y hy
          rw [hidone] at hy
          rcases List.mem_cons.mp hy with h | h
          · exact h ▸ hx
          · intro hy2
            exact ihf y h (by rw [hs]; exact List.mem_cons_of_mem x hy2)
        · intro y hy
          rw [hidone] at hy
          rcases hy with hy | hy
          · rcases List.mem_cons.mp hy with h | h
            · exact ihs y (Or.inr (by rw [hs, h]; exact List.mem_cons_self x _))
            · exact ihs y (Or.inl h)
          · exact ihs y (Or.inr (by rw [hs]; exact List.mem_cons_of_mem x hy))

theorem messagesOf_extractTodos (c : Nat) (snap : RawSnapshot) :
    messagesOf (extractTodos c snap).1 = [] := by
  cases h : snap.todos? <;> simp [extractTodos, h, messagesOf]

theorem messagesOf_extractWorkspace (snap : RawSnapshot) :
    messagesOf (extractWorkspace snap) = [] := by
  cases h : snap.files with
  | absent => simp [extractWorkspace, h, messagesOf]
  | obj entries =>
      simp only [extractWorkspace, h]
      split_ifs <;> simp [messagesOf]
  | arr entries =>
      simp only [extractWorkspace, h]
      split_ifs <;> simp [messagesOf]

theorem messagesOf_extractSubagents (c : Nat) (snap : RawSnapshot) :
    messagesOf (extractSubagents c snap).1 = [] := by
  cases h : snap.subagents? with
  | none => simp [extractSubagents, h, messagesOf]
  | some l =>
      simp only [extractSubagents, h]
      split_ifs <;> simp [messagesOf]

theorem messagesOf_extractInterrupt (c : Nat) (snap : RawSnapshot) :
    messagesOf (extractInterrupt c snap).1 = [] := by
  cases h : snap.interrupt? with
  | none => simp [extractInterrupt, h, messagesOf]
  | some itr =>
      cases h2 : truthyStr itr.id? <;> simp [extractInterrupt, h, h2, messagesOf]

theorem processSnapshot_messagesOf_none (st : SessState) (snap : RawSnapshot)
    (h : snap.messages? = none) :
    messagesOf (processSnapshot st snap).1 = [] := by
  unfold processSnapshot processSnapshotMsgs
  rw [h]
  simp only [messagesOf_append, messagesOf_extractTodos, messagesOf_extractWorkspace,
    messagesOf_extractSubagents, messagesOf_extractInterrupt, List.append_nil]
  simp [messagesOf]

theorem processSnapshot_messagesOf_some (st : SessState) (snap : RawSnapshot)
    (msgs : List RawMsg) (h : snap.messages? = some msgs) :
    messagesOf (processSnapshot st snap).1 = messagesOf (processMessages st msgs).1 := by
  unfold processSnapshot processSnapshotMsgs
  rw [h]
  simp only [messagesOf_append, messagesOf_extractTodos, messagesOf_extractWorkspace,
    messagesOf_extractSubagents, messagesOf_extractInterrupt, List.append_nil]

theorem processSnapshot_seen_none (st : SessState) (snap : RawSnapshot)
    (h : snap.messages? = none) :
    (processSnapshot st snap).2.seenMessageIds = st.seenMessageIds := by
  unfold processSnapshot processSnapshotMsgs
  rw [h]

theorem processSnapshot_seen_some (st : SessState) (snap : RawSnapshot)
    (msgs : List RawMsg) (h : snap.messages? = some msgs) :
    (processSnapshot st snap).2.seenMessageIds =
      (processMessages st msgs).2.seenMessageIds := by
  unfold processSnapshot processSnapshotMsgs
  rw [h]

theorem processSnapshot_invariant (st : SessState) (snap : RawSnapshot) :
    (msgIdsOf (processSnapshot st snap).1).Nodup ∧
    (∀ x ∈ msgIdsOf (processSnapshot st snap).1, x ∉ st.seenMessageIds) ∧
    (∀ x, x ∈ msgIdsOf (processSnapshot st snap).1 ∨ x ∈ st.seenMessageIds →
      x ∈ (processSnapshot st snap).2.seenMessageIds) := by
  cases h : snap.messages? with
  | none =>
      have hm := processSnapshot_messagesOf_none st snap h
      have hs := processSnapshot_seen_none st snap h
      rw [msgIdsOf, hm, hs]
      simp
  | some msgs =>
      have hm := processSnapshot_messagesOf_some st snap msgs h
      have hs := processSnapshot_seen_some st snap msgs h
      rcases processMessages_invariant msgs st with ⟨ihn, ihf, ihs⟩
      rw [msgIdsOf, hm, hs]
      exact ⟨ihn, ihf, ihs⟩

theorem streamLoop_eq_cons (st : SessState) (i : Nat) (abortFrom : Option Nat)
    (snap : RawSnapshot) (rest : List RawSnapshot)
    (hab : abortedAt abortFrom i = false) :
    streamLoop st i abortFrom (snap :: rest) =
      ((processSnapshot st snap).1 ++
        (streamLoop (processSnapshot st snap).2 (i + 1) abortFrom rest).1,
        (streamLoop (processSnapshot st snap).2 (i + 1) abortFrom rest).2) := by
  simp [streamLoop, hab]

theorem streamLoop_invariant (snaps : List RawSnapshot) (st : SessState) (i : Nat)
    (abortFrom : Option Nat) :
    (msgIdsOf (streamLoop st i abortFrom snaps).1).Nodup ∧
    (∀ x ∈ msgIdsOf (streamLoop st i abortFrom snaps).1, x ∉ st.seenMessageIds) := by
  induction snaps generalizing st i with
  | nil => simp [streamLoop, msgIdsOf, messagesOf]
  | cons snap rest ih =>
      by_cases hab : abortedAt abortFrom i
      · simp [streamLoop, hab, msgIdsOf, messagesOf]
      · rw [streamLoop_eq_cons st i abortFrom snap rest (by simpa using hab)]
        rcases processSnapshot_invariant st snap with ⟨pn, pf, ps⟩
        rcases ih (processSnapshot st snap).2 (i + 1) with ⟨rn, rf⟩
        dsimp only
        rw [msgIdsOf_append]
        constructor
        · rw [List.nodup_append]
          refine ⟨pn, rn, ?_⟩
          intro a ha hb
          exact rf a hb (ps a (Or.inl ha))
        · intro x hx
          rcases List.mem_append.mp hx with hx | hx
          · exact pf x hx
          · intro hmem
            exact rf x hx (ps x (Or.inr hmem))

theorem msgIdsOf_terminal_nil :
    msgIdsOf [StreamEvent.done] = [] ∧ ∀ m, msgIdsOf [StreamEvent.error m] = [] := by
  constructor
  · rfl
  · intro m
    rfl

theorem sessionEvents_msgIds (snaps : List RawSnapshot) (abortFrom : Option Nat)
    (fault? : Option String) :
    msgIdsOf (sessionEvents snaps abortFrom fault?) =
      msgIdsOf (streamLoop initialState 0 abortFrom snaps).1 := by
  unfold sessionEvents
  dsimp only
  split_ifs
  · rw [msgIdsOf_append, msgIdsOf_terminal_nil.1, List.append_nil]
  · cases fault? with
    | none => rw [msgIdsOf_append, msgIdsOf_terminal_nil.1, List.append_nil]
    | some m => rw [msgIdsOf_append, msgIdsOf_terminal_nil.2 m, List.append_nil]

theorem sessionEvents_msgIds_nodup (snaps : List RawSnapshot) (abortFrom : Option Nat)
    (fault? : Option String) :
    (msgIdsOf (sessionEvents snaps abortFrom fault?)).Nodup := by
  rw [sessionEvents_msgIds]
  exact (streamLoop_invariant snaps initialState 0 abortFrom).1

theorem processMsg_not_terminal (st : SessState) (m : RawMsg) :
    ∀ e ∈ (processMsg st m).1, isTerminal e = false := by
  rcases processMsg_cases st m with ⟨he, _⟩ | ⟨x, he, _, _, _⟩ <;> rw [he] <;>
    intro e hmem
  · exact absurd hmem (List.not_mem_nil e)
  · rcases List.mem_singleton.mp hmem with h
    rw [h]
    rfl

theorem processMessages_not_terminal (ms : List RawMsg) (st : SessState) :
    ∀ e ∈ (processMessages st ms).1, isTerminal e = false := by
  induction ms generalizing st with
  | nil =>
      intro e hmem
      exact absurd hmem (List.not_mem_nil e)
  | cons m ms ih =>
      rw [processMessages_eq]
      intro e hmem
      rcases List.mem_append.mp hmem with h | h
      · exact processMsg_not_terminal st m e h
      · exact ih (processMsg st m).2 e h

theorem extractTodos_not_terminal (c : Nat) (snap : RawSnapshot) :
    ∀ e ∈ (extractTodos c snap).1, isTerminal e = false := by
  cases h : snap.todos? <;> intro e hmem <;> simp only [extractTodos, h] at hmem
  · exact absurd hmem (List.not_mem_nil e)
  · rw [List.mem_singleton.mp hmem]
    rfl

theorem extractWorkspace_not_terminal (snap : RawSnapshot) :
    ∀ e ∈ extractWorkspace snap, isTerminal e = false := by
  intro e hmem
  cases h : snap.files with
  | absent =>
      rw [extractWorkspace, h] at hmem
      exact absurd hmem (List.not_mem_nil e)
  | obj entries =>
      rw [extractWorkspace, h] at hmem
      dsimp only at hmem
      split_ifs at hmem
      · rw [List.mem_singleton.mp hmem]
        rfl
      · exact absurd hmem (List.not_mem_nil e)
  | arr entries =>
      rw [extractWorkspace, h] at hmem
      dsimp only at hmem
      split_ifs at hmem
      · rw [List.mem_singleton.mp hmem]
        rfl
      · exact absurd hmem (List.not_mem_nil e)

theorem extractSubagents_not_terminal (c : Nat) (snap : RawSnapshot) :
    ∀ e ∈ (extractSubagents c snap).1, isTerminal e = false := by
  intro e hmem
  cases h : snap.subagents? with
  | none =>
      rw [extractSubagents, h] at hmem
      exact absurd hmem (List.not_mem_nil e)
  | some l =>
      rw [extractSubagents, h] at hmem
      dsimp only at hmem
      split_ifs at hmem
      · rw [List.mem_singleton.mp hmem]
        rfl
      · exact absurd hmem (List.not_mem_nil e)

theorem extractInterrupt_not_terminal (c : Nat) (snap : RawSnapshot) :
    ∀ e ∈ (extractInterrupt c snap).1, isTerminal e = false := by
  intro e hmem
  cases h : snap.interrupt? with
  | none =>
      rw [extractInterrupt, h] at hmem
      exact absurd hmem (List.not_mem_nil e)
  | some itr =>
      cases h2 : truthyStr itr.id? <;>
        simp only [extractInterrupt, h, h2] at hmem <;>
        rw [List.mem_singleton.mp hmem] <;> rfl

theorem processSnapshot_not_terminal (st : SessState) (snap : RawSnapshot) :
    ∀ e ∈ (processSnapshot st snap).1, isTerminal e = false := by
  intro e hmem
  unfold processSnapshot processSnapshotMsgs at hmem
  dsimp only at hmem
  rcases List.mem_append.mp hmem with h | h
  · rcases List.mem_append.mp h with h | h
    · rcases List.mem_append.mp h with h | h
      · rcases List.mem_append.mp h with h | h
        · cases hm : snap.messages? with
          | none =>
              rw [hm] at h
              exact absurd h (List.not_mem_nil e)
          | some msgs =>
              rw [hm] at h
              exact processMessages_not_terminal msgs st e h
        · exact extractTodos_not_terminal _ snap e h
      · exact extractWorkspace_not_terminal snap e h
    · exact extractSubagents_not_terminal _ snap e h
  · exact extractInterrupt_not_terminal _ snap e h

theorem streamLoop_not_terminal (snaps : List RawSnapshot) (st : SessState) (i : Nat)
    (abortFrom : Option Nat) :
    ∀ e ∈ (streamLoop st i abortFrom snaps).1, isTerminal e = false := by
  induction snaps generalizing st i with
  | nil =>
      intro e hmem
      exact absurd hmem (List.not_mem_nil e)
  | cons snap rest ih =>
      intro e hmem
      by_cases hab : abortedAt abortFrom i
      · simp [streamLoop, hab] at hmem
      · rw [streamLoop_eq_cons st i abortFrom snap rest (by simpa using hab)] at hmem
        dsimp only at hmem
        rcases List.mem_append.mp hmem with h | h
        · exact processSnapshot_not_terminal st snap e h
        · exact ih (processSnapshot st snap).2 (i + 1) e h

theorem processSnapshot_decomp (st : SessState) (snap : RawSnapshot) :
    (processSnapshot st snap).1 =
      (processSnapshotMsgs st snap).1 ++
      (extractTodos (processSnapshotMsgs st snap).2.ctr snap).1 ++
      extractWorkspace snap ++
      (extractSubagents
        (extractTodos (processSnapshotMsgs st snap).2.ctr snap).2 snap).1 ++
      (extractInterrupt
        (extractSubagents
          (extractTodos (processSnapshotMsgs st snap).2.ctr snap).2 snap).2 snap).1 :=
  rfl

theorem processMessages_all_messages (ms : List RawMsg) (st : SessState) :
    ∀ e ∈ (processMessages st ms).1, ∃ m, e = StreamEvent.message m := by
  induction ms generalizing st with
  | nil =>
      intro e hmem
      exact absurd hmem (List.not_mem_nil e)
  | cons a ms ih =>
      rw [processMessages_eq]
      intro e hmem
      rcases List.mem_append.mp hmem with h | h
      · rcases processMsg_cases st a with ⟨he, _⟩ | ⟨x, he, _, _, _⟩ <;> rw [he] at h
        · exact absurd h (List.not_mem_nil e)
        · exact ⟨_, List.mem_singleton.mp h⟩
      · exact ih (processMsg st a).2 e h

theorem processSnapshotMsgs_all_messages (st : SessState) (snap : RawSnapshot) :
    ∀ e ∈ (processSnapshotMsgs st snap).1, ∃ m, e = StreamEvent.message m := by
  intro e hmem
  cases h : snap.messages? with
  | none =>
      rw [processSnapshotMsgs, h] at hmem
      exact absurd hmem (List.not_mem_nil e)
  | some msgs =>
      rw [processSnapshotMsgs, h] at hmem
      exact processMessages_all_messages msgs st e hmem

theorem todosPayloads_append (a b : List StreamEvent) :
    todosPayloads (a ++ b) = todosPayloads a ++ todosPayloads b := by
  simp [todosPayloads]

theorem workspacePayloads_append (a b : List StreamEvent) :
    workspacePayloads (a ++ b) = workspacePayloads a ++ workspacePayloads b := by
  simp [workspacePayloads]

theorem todosPayloads_of_messages (evs : List StreamEvent)
    (h : ∀ e ∈ evs, ∃ m, e = StreamEvent.message m) : todosPayloads evs = [] := by
  rw [todosPayloads, List.filterMap_eq_nil_iff]
  intro e he
  rcases h e he with ⟨m, rfl⟩
  rfl

theorem workspacePayloads_of_messages (evs : List StreamEvent)
    (h : ∀ e ∈ evs, ∃ m, e = StreamEvent.message m) : workspacePayloads evs = [] := by
  rw [workspacePayloads, List.filterMap_eq_nil_iff]
  intro e he
  rcases h e he with ⟨m, rfl⟩
  rfl

theorem todosPayloads_extractWorkspace (snap : RawSnapshot) :
    todosPayloads (extractWorkspace snap) = [] := by
  cases h : snap.files with
  | absent => simp [extractWorkspace, h, todosPayloads]
  | obj entries =>
      simp only [extractWorkspace, h]
      split_ifs <;> simp [todosPayloads]
  | arr entries =>
      simp only [extractWorkspace, h]
      split_ifs <;> simp [todosPayloads]

theorem todosPayloads_extractSubagents (c : Nat) (snap : RawSnapshot) :
    todosPayloads (extractSubagents c snap).1 = [] := by
  cases h : snap.subagents? with
  | none => simp [extractSubagents, h, todosPayloads]
  | some l =>
      simp only [extractSubagents, h]
      split_ifs <;> simp [todosPayloads]

theorem todosPayloads_extractInterrupt (c : Nat) (snap : RawSnapshot) :
    todosPayloads (extractInterrupt c snap).1 = [] := by
  cases h : snap.interrupt? with
  | none => simp [extractInterrupt, h, todosPayloads]
  | some itr =>
      cases h2 : truthyStr itr.id? <;> simp [extractInterrupt, h, h2, todosPayloads]

theorem workspacePayloads_extractTodos (c : Nat) (snap : RawSnapshot) :
    workspacePayloads (extractTodos c snap).1 = [] := by
  cases h : snap.todos? <;> simp [extractTodos, h, workspacePayloads]

theorem workspacePayloads_extractSubagents (c : Nat) (snap : RawSnapshot) :
    workspacePayloads (extractSubagents c snap).1 = [] := by
  cases h : snap.subagents? with
  | none => simp [extractSubagents, h, workspacePayloads]
  | some l =>
      simp only [extractSubagents, h]
      split_ifs <;> simp [workspacePayloads]

theorem workspacePayloads_extractInterrupt (c : Nat) (snap : RawSnapshot) :
    workspacePayloads (extractInterrupt c snap).1 = [] := by
  cases h : snap.interrupt? with
  | none => simp [extractInterrupt, h, workspacePayloads]
  | some itr =>
      cases h2 : truthyStr itr.id? <;> simp [extractInterrupt, h, h2, workspacePayloads]

theorem todosPayloads_processSnapshot (st : SessState) (snap : RawSnapshot) :
    todosPayloads (processSnapshot st snap).1 =
      todosPayloads (extractTodos (processSnapshotMsgs st snap).2.ctr snap).1 := by
  rw [processSnapshot_decomp]
  rw [todosPayloads_append, todosPayloads_append, todosPayloads_append,
    todosPayloads_append]
  rw [todosPayloads_of_messages _ (processSnapshotMsgs_all_messages st snap),
    todosPayloads_extractWorkspace, todosPayloads_extractSubagents,
    todosPayloads_extractInterrupt]
  simp

theorem workspacePayloads_processSnapshot (st : SessState) (snap : RawSnapshot) :
    workspacePayloads (processSnapshot st snap).1 =
      workspacePayloads (extractWorkspace snap) := by
  rw [processSnapshot_decomp]
  rw [workspacePayloads_append, workspacePayloads_append, workspacePayloads_append,
    workspacePayloads_append]
  rw [workspacePayloads_of_messages _ (processSnapshotMsgs_all_messages st snap),
    workspacePayloads_extractTodos, workspacePayloads_extractSubagents,
    workspacePayloads_extractInterrupt]
  simp

theorem processMsg_no_emit (st : SessState) (m : RawMsg)
    (h : ¬(deriveRole m.tag? = Role.assistant ∧ extractContent m.content ≠ "")) :
    (processMsg st m).1 = [] := by
  cases hid : truthyStr m.id? <;> simp only [processMsg, hid] <;>
    split_ifs with h1 h2 <;> rfl

theorem processMessages_message_shape (ms : List RawMsg) (st : SessState) :
    ∀ m ∈ messagesOf (processMessages st ms).1,
      m.role = Role.assistant ∧ m.content ≠ "" := by
  induction ms generalizing st with
  | nil =>
      intro m hm
      simp [processMessages, messagesOf] at hm
  | cons a ms ih =>
      rw [processMessages_eq]
      intro m hm
      dsimp only at hm
      rw [messagesOf_append] at hm
      rcases List.mem_append.mp hm with h | h
      · rcases processMsg_cases st a with ⟨he, _⟩ | ⟨x, he, _, _, hc⟩ <;> rw [he] at h
        · simp [messagesOf] at h
        · have hm2 : m = Message.mk x Role.assistant (extractContent a.content) := by
            simpa [messagesOf] using h
          rw [hm2]
          exact ⟨rfl, hc⟩
      · exact ih (processMsg st a).2 m h

theorem extractTodos_none (c : Nat) (snap : RawSnapshot) (h : snap.todos? = none) :
    (extractTodos c snap).1 = [] := by
  simp [extractTodos, h]

theorem extractTodos_some (c : Nat) (snap : RawSnapshot) (l : List RawTodo)
    (h : snap.todos? = some l) :
    (extractTodos c snap).1 = [StreamEvent.todos (mkTodos c l).1] := by
  simp [extractTodos, h]

theorem truthyStr_eq_some (o : Option String) (s : String)
    (h : truthyStr o = some s) : o = some s := by
  cases o with
  | none => simp [truthyStr] at h
  | some s2 =>
      rw [truthyStr] at h
      split_ifs at h
      exact h

theorem mkTodo_status (c : Nat) (t : RawTodo) :
    (mkTodo c t).1.status = (truthyStr t.status?).getD "pending" := by
  cases h : truthyStr t.id? <;> simp [mkTodo, h]

theorem mkTodos_status (l : List RawTodo) (c : Nat) :
    ∀ td ∈ (mkTodos c l).1, td.status = "pending" ∨
      ∃ t ∈ l, t.status? = some td.status := by
  induction l generalizing c with
  | nil =>
      intro td htd
      simp [mkTodos] at htd
  | cons t ts ih =>
      intro td htd
      rw [mkTodos] at htd
      dsimp only at htd
      rcases List.mem_cons.mp htd with h | h
      · have hst : td.status = (truthyStr t.status?).getD "pending" := by
          rw [h, mkTodo_status]
        cases h2 : truthyStr t.status? with
        | none =>
            rw [h2] at hst
            exact Or.inl hst
        | some s =>
            rw [h2, Option.getD_some] at hst
            refine Or.inr ⟨t, List.mem_cons_self t ts, ?_⟩
            rw [hst]
            exact truthyStr_eq_some t.status? s h2
      · rcases ih (mkTodo c t).2 td h with h2 | ⟨t2, ht2, hst⟩
        · exact Or.inl h2
        · exact Or.inr ⟨t2, List.mem_cons_of_mem t ht2, hst⟩

/-! ### Concrete fixtures -/

/-- An assistant message with a raw id and plain string content. -/
def helloMsg : RawMsg :=
  { id? := some "m1", tag? := some "ai", content := RawContent.str "hello" }

/-- A tool message with a raw id and plain string content. -/
def toolMsg : RawMsg :=
  { id? := some "tm", tag? := some "tool", content := RawContent.str "x" }

/-- An assistant message without any id field. -/
def idlessMsg : RawMsg :=
  { id? := none, tag? := some "ai", content := RawContent.str "x" }

/-- A snapshot carrying only the given message. -/
def msgOnlySnap (m : RawMsg) : RawSnapshot :=
  { messages? := some [m], todos? := none, files := FilesField.absent,
    workspacePath? := none, subagents? := none, interrupt? := none }

/-- A snapshot whose todos field is a present but empty list. -/
def emptyTodosSnap : RawSnapshot :=
  { messages? := none, todos? := some [], files := FilesField.absent,
    workspacePath? := none, subagents? := none, interrupt? := none }

/-- A snapshot with one todo whose status is outside the documented set. -/
def bogusTodoSnap : RawSnapshot :=
  { messages? := none,
    todos? := some [{ id? := some "t1", content? := some "c", status? := some "bogus" }],
    files := FilesField.absent, workspacePath? := none, subagents? := none,
    interrupt? := none }

/-- A snapshot whose files mapping holds one entry, a.txt with content hi. -/
def snapFileHi : RawSnapshot :=
  { messages? := none, todos? := none,
    files := FilesField.obj [("a.txt", { content? := some "hi", lastModified? := none })],
    workspacePath? := none, subagents? := none, interrupt? := none }

/-- A snapshot whose files mapping is present but empty. -/
def snapFileEmptyObj : RawSnapshot :=
  { messages? := none, todos? := none, files := FilesField.obj [],
    workspacePath? := none, subagents? := none, interrupt? := none }

theorem processMsg_idless_emit (seen : List MsgId) (c : Nat) (m : RawMsg)
    (hid : truthyStr m.id? = none) (hrole : deriveRole m.tag? = Role.assistant)
    (hc : extractContent m.content ≠ "") (hnotseen : MsgId.fresh c ∉ seen) :
    processMsg { seenMessageIds := seen, ctr := c } m =
      ([StreamEvent.message
          (Message.mk (MsgId.fresh c) Role.assistant (extractContent m.content))],
        { seenMessageIds := MsgId.fresh c :: seen, ctr := c + 1 }) := by
  simp only [processMsg, hid, hrole]
  rw [if_neg hnotseen, if_pos ⟨trivial, hc⟩]

theorem processSnapshot_msgOnly (seen : List MsgId) (c : Nat) (m : RawMsg)
    (hid : truthyStr m.id? = none) (hrole : deriveRole m.tag? = Role.assistant)
    (hc : extractContent m.content ≠ "") (hnotseen : MsgId.fresh c ∉ seen) :
    processSnapshot { seenMessageIds := seen, ctr := c } (msgOnlySnap m) =
      ([StreamEvent.message
          (Message.mk (MsgId.fresh c) Role.assistant (extractContent m.content))],
        { seenMessageIds := MsgId.fresh c :: seen, ctr := c + 1 }) := by
  have hmsgs : processSnapshotMsgs { seenMessageIds := seen, ctr := c } (msgOnlySnap m) =
      ([StreamEvent.message
          (Message.mk (MsgId.fresh c) Role.assistant (extractContent m.content))],
        { seenMessageIds := MsgId.fresh c :: seen, ctr := c + 1 }) := by
    rw [processSnapshotMsgs]
    show processMessages { seenMessageIds := seen, ctr := c } [m] = _
    rw [processMessages, processMessages]
    rw [processMsg_idless_emit seen c m hid hrole hc hnotseen]
    rfl
  unfold processSnapshot
  rw [hmsgs]
  rfl

theorem streamLoop_replicate_idless (m : RawMsg)
    (hid : truthyStr m.id? = none) (hrole : deriveRole m.tag? = Role.assistant)
    (hc : extractContent m.content ≠ "") :
    ∀ (n : Nat) (seen : List MsgId) (c i : Nat),
      (∀ k, c ≤ k → MsgId.fresh k ∉ seen) →
      (streamLoop { seenMessageIds := seen, ctr := c } i none
          (List.replicate n (msgOnlySnap m))).1 =
        (List.range' c n).map (fun k => StreamEvent.message
          (Message.mk (MsgId.fresh k) Role.assistant (extractContent m.content))) := by
  intro n
  induction n with
  | zero =>
      intro seen c i hfresh
      rfl
  | succ n ih =>
      intro seen c i hfresh
      rw [List.replicate_succ]
      rw [streamLoop_eq_cons _ i none _ _ rfl]
      rw [processSnapshot_msgOnly seen c m hid hrole hc (hfresh c (Nat.le_refl c))]
      dsimp only
      rw [ih (MsgId.fresh c :: seen) (c + 1) (i + 1) ?hfr]
      case hfr =>
        intro k hk
        rw [List.mem_cons]
        push_neg
        constructor
        · intro hkc
          rw [MsgId.fresh.injEq] at hkc
          exact absurd hkc (by omega)
        · exact hfresh k (by omega)
      rw [List.range'_succ]
      rfl

theorem msgIdsOf_map_fresh (content : String) (l : List Nat) :
    msgIdsOf (l.map (fun k => StreamEvent.message
      (Message.mk (MsgId.fresh k) Role.assistant content))) = l.map MsgId.fresh := by
  induction l with
  | nil => rfl
  | cons a l ih =>
      simp only [msgIdsOf, messagesOf] at ih
      simp only [msgIdsOf, messagesOf, List.map_cons, List.filterMap_cons]
      rw [ih]

/-! ### Claims -/

/-- Claim C1: every session started by invoke pushes exactly one terminal
event — one Done or one Error, never both and never zero — and that terminal
event is the last event pushed on the session's channel: the event list
always splits into a terminal-free prefix followed by a single terminal
event. -/
theorem session_terminal_exclusivity (snaps : List RawSnapshot)
    (abortFrom : Option Nat) (fault? : Option String) :
    ∃ es t, sessionEvents snaps abortFrom fault? = es ++ [t] ∧
      isTerminal t = true ∧ ∀ e ∈ es, isTerminal e = false := by
  cases fault? with
  | none =>
      unfold sessionEvents
      dsimp only
      split_ifs <;>
        exact ⟨_, StreamEvent.done, rfl, rfl,
          streamLoop_not_terminal snaps initialState 0 abortFrom⟩
  | some msg =>
      unfold sessionEvents
      dsimp only
      split_ifs
      · exact ⟨_, StreamEvent.done, rfl, rfl,
          streamLoop_not_terminal snaps initialState 0 abortFrom⟩
      · exact ⟨_, StreamEvent.error msg, rfl, rfl,
          streamLoop_not_terminal snaps initialState 0 abortFrom⟩

/-- Claim C2: across one whole session, any given message identifier is
carried by at most one emitted Message event: the dedup set gates emission,
so repeated ids across or within snapshots never yield a second Message
event. -/
theorem session_message_dedup (snaps : List RawSnapshot) (abortFrom : Option Nat)
    (fault? : Option String) (x : MsgId) :
    (msgIdsOf (sessionEvents snaps abortFrom fault?)).count x ≤ 1 :=
  List.nodup_iff_count_le_one.mp (sessionEvents_msgIds_nodup snaps abortFrom fault?) x

/-- Claim C3 (code bug): the agent:interrupt handler never checks whether the
thread has a pending interrupt and never reports any error to its caller, so
calling resume for a thread with no pending interrupt does NOT fail with
NoPendingInterrupt — for reject and edit it is a plain silent no-op. -/
theorem interrupt_handler_never_reports_error (threadId : String)
    (decision : HITLDecision) :
    (handleInterrupt threadId decision).2 = none := by
  cases h : decision.type <;> simp [handleInterrupt, h]

/-- Claim C4 (code bug): the reject and edit branches of the agent:interrupt
handler contain only comments — for either decision the handler performs no
runtime interaction at all (no cancellation of the pending tool call and no
overwrite of its arguments) and reports success. -/
theorem interrupt_reject_edit_noop (threadId : String) (p : Option String) :
    handleInterrupt threadId { type := DecisionType.reject, payload? := p } =
      ([], none) ∧
    handleInterrupt threadId { type := DecisionType.edit, payload? := p } =
      ([], none) :=
  ⟨rfl, rfl⟩

/-- Claim C5: when the cancellation token is already signaled at the first
loop check, the session emits no Message, Todos, Workspace or Subagents
events and exactly one Done event — the event list is exactly the single
Done.  The hypothesis excludes the one path outside the claim's scope: a
runtime that yields no snapshot at all and faults on the very first pull,
which the catch block turns into an Error event. -/
theorem cancelled_before_first_pull (snaps : List RawSnapshot)
    (fault? : Option String) (h : snaps = [] → fault? = none) :
    sessionEvents snaps (some 0) fault? = [StreamEvent.done] := by
  cases snaps with
  | nil =>
      rw [h rfl]
      rfl
  | cons s rest =>
      have hloop : streamLoop initialState 0 (some 0) (s :: rest) = ([], true) := by
        simp [streamLoop, abortedAt]
      simp [sessionEvents, hloop]

/-- Claim C5 witness: with one pending snapshot, a token signaled from the
start, and a runtime that would fault after it, the session still emits
exactly one Done. -/
theorem cancelled_before_first_pull_witness :
    sessionEvents [msgOnlySnap helloMsg] (some 0) (some "boom") =
      [StreamEvent.done] :=
  cancelled_before_first_pull [msgOnlySnap helloMsg] (some "boom")
    (fun hcontra => absurd hcontra (List.cons_ne_nil (msgOnlySnap helloMsg) []))

/-- Claim C6: a Message event is emitted only for items whose derived role is
assistant and whose extracted content is non-empty (the event carries exactly
that role and content); a snapshot whose only message has role tool, or
whose only message has empty extracted content, yields zero Message
events. -/
theorem message_emission_rule (st : SessState) (snap : RawSnapshot) :
    (∀ m ∈ messagesOf (processSnapshot st snap).1,
      m.role = Role.assistant ∧ m.content ≠ "") ∧
    (∀ msg, snap.messages? = some [msg] →
      (deriveRole msg.tag? = Role.tool ∨ extractContent msg.content = "") →
      messagesOf (processSnapshot st snap).1 = []) := by
  constructor
  · intro m hm
    cases h : snap.messages? with
    | none =>
        rw [processSnapshot_messagesOf_none st snap h] at hm
        exact absurd hm (List.not_mem_nil m)
    | some msgs =>
        rw [processSnapshot_messagesOf_some st snap msgs h] at hm
        exact processMessages_message_shape msgs st m hm
  · intro msg hmsgs hror
    rw [processSnapshot_messagesOf_some st snap [msg] hmsgs]
    have hno : (processMsg st msg).1 = [] := by
      apply processMsg_no_emit
      rintro ⟨hrole, hcont⟩
      rcases hror with h | h
      · rw [hrole] at h
        exact absurd h (by decide)
      · exact hcont h
    rw [processMessages_eq]
    dsimp only
    rw [hno, List.nil_append]
    rfl

/-- Claim C6 witness: a snapshot whose only message has role tool yields zero
Message events. -/
theorem message_emission_rule_witness :
    messagesOf (processSnapshot initialState (msgOnlySnap toolMsg)).1 = [] :=
  (message_emission_rule initialState (msgOnlySnap toolMsg)).2 toolMsg rfl
    (Or.inl (by decide))

/-- Claim C7 (counterexample): a snapshot whose todos field is a present but
EMPTY list still yields a Todos event — an empty array is truthy in
JavaScript, so the handler's guard passes — refuting the claim that an empty
todos list yields no Todos event. -/
theorem empty_todos_list_still_emits :
    emptyTodosSnap.todos? = some [] ∧
    todosPayloads (processSnapshot initialState emptyTodosSnap).1 = [[]] :=
  ⟨rfl, rfl⟩

/-- Claim C7 (amended): the Todos extractor emits no Todos event when the
todos field is absent or not a list, and emits exactly one Todos event for
every present list, including the empty list. -/
theorem todos_emission_amended (st : SessState) (snap : RawSnapshot) :
    (snap.todos? = none → todosPayloads (processSnapshot st snap).1 = []) ∧
    (∀ l, snap.todos? = some l →
      todosPayloads (processSnapshot st snap).1 =
        [(mkTodos (processSnapshotMsgs st snap).2.ctr l).1]) := by
  constructor
  · intro h
    rw [todosPayloads_processSnapshot, extractTodos_none _ snap h]
    rfl
  · intro l h
    rw [todosPayloads_processSnapshot, extractTodos_some _ snap l h]
    rfl

/-- Claim C7 amended witness: the empty present list yields exactly one Todos
event (with an empty payload). -/
theorem todos_emission_amended_witness :
    todosPayloads (processSnapshot initialState emptyTodosSnap).1 =
      [(mkTodos (processSnapshotMsgs initialState emptyTodosSnap).2.ctr []).1] :=
  (todos_emission_amended initialState emptyTodosSnap).2 [] rfl

/-- Claim C8: a Workspace event is emitted only when the derived file list is
non-empty; an empty files mapping yields zero Workspace events; and a mapping
with the single entry of a path to a string content yields exactly one
Workspace event whose single FileEntry carries that path, is_dir false, and
size the character length of the content. -/
theorem workspace_emission_rule (st : SessState) (snap : RawSnapshot) :
    (∀ fs ∈ workspacePayloads (processSnapshot st snap).1, fs ≠ []) ∧
    (snap.files = FilesField.obj [] →
      workspacePayloads (processSnapshot st snap).1 = []) ∧
    (∀ p c, snap.files =
        FilesField.obj [(p, { content? := some c, lastModified? := none })] →
      workspacePayloads (processSnapshot st snap).1 =
        [[FileEntry.mk p (some false) (some c.length)]]) := by
  refine ⟨?_, ?_, ?_⟩
  · intro fs hfs
    rw [workspacePayloads_processSnapshot] at hfs
    cases h : snap.files with
    | absent =>
        rw [extractWorkspace, h] at hfs
        exact absurd hfs (List.not_mem_nil fs)
    | obj entries =>
        rw [extractWorkspace, h] at hfs
        dsimp only at hfs
        split_ifs at hfs with hlen
        · have hfs2 : fs = entries.map (fun e =>
              { path := e.1, is_dir := some false,
                size := match e.2.content? with
                  | some c => some c.length
                  | none => none : FileEntry }) := by
            simpa [workspacePayloads] using hfs
          rw [hfs2]
          exact List.length_pos.mp (by simpa using hlen)
        · exact absurd hfs (List.not_mem_nil fs)
    | arr entries =>
        rw [extractWorkspace, h] at hfs
        dsimp only at hfs
        split_ifs at hfs with hlen
        · have hfs2 : fs = entries.map (fun f =>
              { path := f.path, is_dir := f.is_dir?, size := f.size? : FileEntry }) := by
            simpa [workspacePayloads] using hfs
          rw [hfs2]
          have : entries ≠ [] := List.length_pos.mp hlen
          intro hnil
          exact this (List.map_eq_nil_iff.mp hnil)
        · exact absurd hfs (List.not_mem_nil fs)
  · intro h
    rw [workspacePayloads_processSnapshot, extractWorkspace, h]
    rfl
  · intro p c h
    rw [workspacePayloads_processSnapshot, extractWorkspace, h]
    rfl

/-- Claim C8 witness: the mapping with single entry a.txt mapped to content
hi yields exactly one Workspace event with one FileEntry of path a.txt,
is_dir false and size 2, and the empty mapping yields zero Workspace
events. -/
theorem workspace_emission_rule_witness :
    workspacePayloads (processSnapshot initialState snapFileHi).1 =
      [[FileEntry.mk "a.txt" (some false) (some 2)]] ∧
    workspacePayloads (processSnapshot initialState snapFileEmptyObj).1 = [] :=
  ⟨(workspace_emission_rule initialState snapFileHi).2.2 "a.txt" "hi" rfl,
    (workspace_emission_rule initialState snapFileEmptyObj).2.1 rfl⟩

/-- Claim C9 (counterexample): the raw todo status "bogus" — outside the
documented status set — is passed through unvalidated into the emitted Todos
event: the TS `as` cast performs no runtime check. -/
theorem todo_status_not_validated :
    todosPayloads (processSnapshot initialState bogusTodoSnap).1 =
      [[Todo.mk (MsgId.raw "t1") "c" "bogus"]] ∧
    "bogus" ∉ allowedTodoStatuses :=
  ⟨rfl, by decide⟩

/-- Claim C9 (amended): in every emitted Todos event each Todo's status is
either the default "pending" or the raw item's status string passed through
verbatim; no validation against the documented status set is performed. -/
theorem todo_status_passthrough (st : SessState) (snap : RawSnapshot)
    (items : List Todo)
    (h : StreamEvent.todos items ∈ (processSnapshot st snap).1) :
    ∀ td ∈ items, td.status = "pending" ∨
      ∃ t ∈ snap.todos?.getD [], t.status? = some td.status := by
  have hmem : items ∈ todosPayloads (processSnapshot st snap).1 :=
    List.mem_filterMap.mpr ⟨StreamEvent.todos items, h, rfl⟩
  rw [todosPayloads_processSnapshot] at hmem
  cases h2 : snap.todos? with
  | none =>
      rw [extractTodos_none _ snap h2] at hmem
      simp [todosPayloads] at hmem
  | some l =>
      rw [extractTodos_some _ snap l h2] at hmem
      have hitems : items = (mkTodos (processSnapshotMsgs st snap).2.ctr l).1 := by
        simpa [todosPayloads] using hmem
      intro td htd
      rw [hitems] at htd
      rcases mkTodos_status l _ td htd with hp | ⟨t, ht, hts⟩
      · exact Or.inl hp
      · exact Or.inr ⟨t, ht, hts⟩

/-- Claim C9 amended witness: the bogus-status todo's emitted status is the
raw status string of the raw item. -/
theorem todo_status_passthrough_witness :
    (Todo.mk (MsgId.raw "t1") "c" "bogus").status = "pending" ∨
      ∃ t ∈ bogusTodoSnap.todos?.getD [],
        t.status? = some (Todo.mk (MsgId.raw "t1") "c" "bogus").status :=
  todo_status_passthrough initialState bogusTodoSnap
    [Todo.mk (MsgId.raw "t1") "c" "bogus"] (by decide)
    (Todo.mk (MsgId.raw "t1") "c" "bogus") (List.mem_singleton.mpr rfl)

/-- Claim C10: an assistant message with non-empty content but no id of its
own is re-emitted in every snapshot in which it appears: over n snapshots
each containing exactly it, the session emits exactly n Message events whose
identifiers are the n freshly generated ones in generation order — pairwise
distinct, never suppressed by the dedup tracker. -/
theorem idless_messages_reemitted (m : RawMsg) (n : Nat)
    (hid : truthyStr m.id? = none) (hrole : deriveRole m.tag? = Role.assistant)
    (hc : extractContent m.content ≠ "") :
    msgIdsOf (sessionEvents (List.replicate n (msgOnlySnap m)) none none) =
      (List.range n).map MsgId.fresh ∧
    (msgIdsOf (sessionEvents (List.replicate n (msgOnlySnap m)) none none)).Nodup := by
  refine ⟨?_, sessionEvents_msgIds_nodup _ _ _⟩
  have hloop := streamLoop_replicate_idless m hid hrole hc n [] 0 0
    (fun k _ => List.not_mem_nil _)
  rw [sessionEvents_msgIds]
  show msgIdsOf (streamLoop { seenMessageIds := [], ctr := 0 } 0 none
    (List.replicate n (msgOnlySnap m))).1 = _
  rw [hloop, msgIdsOf_map_fresh, List.range_eq_range']

/-- Claim C10 witness: three snapshots each carrying the same id-less
assistant message yield three Message events with the three distinct fresh
identifiers. -/
theorem idless_messages_reemitted_witness :
    msgIdsOf (sessionEvents (List.replicate 3 (msgOnlySnap idlessMsg)) none none) =
      (List.range 3).map MsgId.fresh ∧
    (msgIdsOf (sessionEvents (List.replicate 3 (msgOnlySnap idlessMsg)) none none)).Nodup :=
  idless_messages_reemitted idlessMsg 3 rfl (by decide) (by decide)
